import Mathlib

/-
Verification of the signal-graph audio engine (a small Rust program).

Modelling conventions:
- Rust f32 values are idealized as exact rationals where only field
  arithmetic and comparisons occur (the ADSR envelope, SampleTime seconds),
  and as real numbers where transcendental functions occur (the sine
  oscillator and vibrato frequency sources).
- Rust u32 arithmetic wraps modulo 2^32; the SampleTime comparison products
  are therefore taken modulo 2^32.
- The Rust Source trait (update/sample) becomes an explicit record of an
  update function and a sample function over a state type; mutation becomes
  state passing, so sample trivially mutates nothing.
- Rust f32::fract is x - x.trunc() with truncation toward zero; it is
  modelled exactly that way (floor for non-negative inputs, ceiling for
  negative inputs).
-/

namespace Aud

/-- Elapsed time as an exact sample count at a sample rate (u32 fields in the source). -/
structure SampleTime where
  count : Nat
  rate : Nat
deriving DecidableEq, Repr

/-- Modulus of u32 arithmetic. -/
def U32 : Nat := 2 ^ 32

/-- SampleTime.as_secs from the source: count as f32 divided by rate as f32, idealized over the rationals. -/
def SampleTime.as_secs (t : SampleTime) : ℚ := (t.count : ℚ) / (t.rate : ℚ)

/-- PartialEq for SampleTime from the source: cross multiplication, u32 products wrap modulo 2^32. -/
def SampleTime.eqv (a b : SampleTime) : Bool :=
  decide ((a.count * b.rate) % U32 = (b.count * a.rate) % U32)

/-- The strict order induced by PartialOrd for SampleTime from the source: compares the wrapped cross products. -/
def SampleTime.lt (a b : SampleTime) : Bool :=
  decide ((a.count * b.rate) % U32 < (b.count * a.rate) % U32)

theorem SampleTime.as_secs_nonneg (t : SampleTime) : 0 ≤ t.as_secs := by
  unfold SampleTime.as_secs
  positivity

/-- A Source (the Rust trait) over a state type σ producing samples in S:
update advances the node by an elapsed SampleTime, sample reads the current
value without touching the state. -/
structure Source (σ : Type) (S : Type) where
  update : σ → SampleTime → σ
  sample : σ → S

/-- The states of the ADSR envelope, in source order. -/
inductive ADSRState where
  | Before
  | Attack
  | Decay
  | Sustain
  | Release
  | After
deriving DecidableEq, Repr

/-- The ADSR envelope node from the source; the active Range(f32) becomes the
pair activeStart, activeEnd with membership activeStart ≤ t ∧ t < activeEnd. -/
structure ADSR where
  activeStart : ℚ
  activeEnd : ℚ
  attack_rate : ℚ
  decay_rate : ℚ
  sustain_level : ℚ
  release_rate : ℚ
  time : ℚ
  state : ADSRState
  level : ℚ
deriving DecidableEq, Repr

/-- ADSR update from the source: accumulate time, then step the state machine. -/
def ADSR.update (a0 : ADSR) (elapsed : SampleTime) : ADSR :=
  let dt := elapsed.as_secs
  let a := { a0 with time := a0.time + dt }
  match a.state with
  | ADSRState.Before =>
      if a.activeStart ≤ a.time ∧ a.time < a.activeEnd then
        { a with state := ADSRState.Attack }
      else a
  | ADSRState.Attack =>
      let level := a.level + a.attack_rate * dt
      if 1 < level then
        { a with level := 1, state := ADSRState.Decay }
      else
        { a with level := level }
  | ADSRState.Decay =>
      let level := a.level - a.decay_rate * dt
      if level < a.sustain_level then
        { a with level := a.sustain_level, state := ADSRState.Sustain }
      else
        { a with level := level }
  | ADSRState.Sustain =>
      if ¬ (a.activeStart ≤ a.time ∧ a.time < a.activeEnd) then
        { a with state := ADSRState.Release }
      else a
  | ADSRState.Release =>
      let level := a.level - a.release_rate * dt
      if level < 0 then
        { a with level := 0, state := ADSRState.After }
      else
        { a with level := level }
  | ADSRState.After => a

/-- ADSR sample from the source: the current level. -/
def ADSR.sample (a : ADSR) : ℚ := a.level

/-- The ADSR node as a Source. -/
def adsrSource : Source ADSR ℚ :=
  { update := ADSR.update, sample := ADSR.sample }

/-- The adsr constructor function from the source: time 0, state Before, level 0. -/
def adsr (activeStart activeEnd attack_rate decay_rate sustain_level release_rate : ℚ) : ADSR :=
  { activeStart := activeStart
    activeEnd := activeEnd
    attack_rate := attack_rate
    decay_rate := decay_rate
    sustain_level := sustain_level
    release_rate := release_rate
    time := 0
    state := ADSRState.Before
    level := 0 }

/-- The Source implementation for a bare f32 value (the state is the value,
update is the default no-op, sample returns the value itself). -/
def f32Source : Source ℝ ℝ :=
  { update := fun s _ => s, sample := fun s => s }

/-- The Const node from the source. -/
structure Const (T : Type) where
  value : T

/-- The Source implementation for Const: default no-op update, sample clones the value. -/
def constSource (T : Type) : Source (Const T) T :=
  { update := fun s _ => s, sample := fun s => s.value }

/-- The Wrapped newtype from the source; the single positional field is named inner. -/
structure Wrapped (σ : Type) where
  inner : σ

/-- Source.wrap from the source trait: wrap self in the Wrapped newtype. -/
def wrap {σ : Type} (s : σ) : Wrapped σ := Wrapped.mk s

/-- Wrapped.unwrap from the source: return the inner node. -/
def Wrapped.unwrap {σ : Type} (w : Wrapped σ) : σ := w.inner

/-- The Source implementation for Wrapped: delegate both operations to the inner node. -/
def wrappedSource {σ S : Type} (Src : Source σ S) : Source (Wrapped σ) S :=
  { update := fun w t => Wrapped.mk (Src.update w.inner t)
    sample := fun w => Src.sample w.inner }

/-- The Add combinator node from the source. -/
structure Add (L R : Type) where
  left : L
  right : R

/-- The Mul combinator node from the source. -/
structure Mul (L R : Type) where
  left : L
  right : R

/-- The Source implementation for Add: update both children, sample the sum. -/
def addSource {σ₁ σ₂ : Type} (L : Source σ₁ ℝ) (R : Source σ₂ ℝ) : Source (Add σ₁ σ₂) ℝ :=
  { update := fun s t => { left := L.update s.left t, right := R.update s.right t }
    sample := fun s => L.sample s.left + R.sample s.right }

/-- The Source implementation for Mul: update both children, sample the product. -/
def mulSource {σ₁ σ₂ : Type} (L : Source σ₁ ℝ) (R : Source σ₂ ℝ) : Source (Mul σ₁ σ₂) ℝ :=
  { update := fun s t => { left := L.update s.left t, right := R.update s.right t }
    sample := fun s => L.sample s.left * R.sample s.right }

/-- Truncation toward zero, the behaviour of Rust f32::trunc. -/
noncomputable def rustTrunc (x : ℝ) : ℝ :=
  if 0 ≤ x then (⌊x⌋ : ℝ) else (⌈x⌉ : ℝ)

/-- The fractional part in the sense of Rust f32::fract: x - x.trunc(). -/
noncomputable def rustFract (x : ℝ) : ℝ := x - rustTrunc x

/-- The Sine oscillator node from the source: a frequency source state and a phase. -/
structure Sine (σ : Type) where
  hz : σ
  phase : ℝ

/-- The sine constructor function from the source: given frequency source, phase 0. -/
def sine {σ : Type} (hz : σ) : Sine σ := { hz := hz, phase := 0 }

/-- The Source implementation for Sine: update advances the frequency source
first, then sets phase to the Rust fract of phase + elapsed seconds times the
frequency sample; sample is sin of phase times TAU (2 pi). -/
noncomputable def sineSource {σ : Type} (F : Source σ ℝ) : Source (Sine σ) ℝ :=
  { update := fun s t =>
      let hz := F.update s.hz t
      { hz := hz, phase := rustFract (s.phase + (t.as_secs : ℝ) * F.sample hz) }
    sample := fun s => Real.sin (s.phase * (2 * Real.pi)) }

/-- Sine.vibrato from the source: rebuild the oscillator whose frequency source
is the original frequency source plus a modulator sine scaled by cents / 14.0. -/
noncomputable def Sine.vibrato {σ : Type} (s : Sine σ) (hz : ℝ) (cents : ℝ) :
    Sine (Add σ (Mul (Sine ℝ) ℝ)) :=
  { hz := { left := s.hz, right := { left := sine hz, right := cents / 14 } }
    phase := s.phase }

/-- The frequency source of a vibrato oscillator whose base frequency is a bare
f32: the base plus a sine modulator scaled by a bare f32 depth. -/
noncomputable def vibHzSource : Source (Add ℝ (Mul (Sine ℝ) ℝ)) ℝ :=
  addSource f32Source (mulSource (sineSource f32Source) f32Source)

/-- The render loop body from main: for each frame of the buffer, update the
root source by one sample at the device rate, then fill every channel slot of
the frame with the single sampled value. Returns the final source state and
the list of rendered frames. -/
def renderCallback {σ S : Type} (Src : Source σ S) (rate channels : Nat) :
    σ → Nat → σ × List (List S)
  | s, 0 => (s, [])
  | s, Nat.succ n =>
      let s1 := Src.update s { count := 1, rate := rate }
      let v := Src.sample s1
      let rest := renderCallback Src rate channels s1 n
      (rest.1, List.replicate channels v :: rest.2)

/-- One render tick: update by SampleTime with count 1 at the device rate. -/
def tick {σ S : Type} (Src : Source σ S) (rate : Nat) (s : σ) : σ :=
  Src.update s { count := 1, rate := rate }

/-- Parameter sanity for the ADSR envelope: non-negative rates and a sustain
level inside the unit interval. -/
def ADSR.paramsOK (a : ADSR) : Prop :=
  0 ≤ a.attack_rate ∧ 0 ≤ a.decay_rate ∧ 0 ≤ a.release_rate ∧
  0 ≤ a.sustain_level ∧ a.sustain_level ≤ 1

theorem ADSR.update_params (a : ADSR) (t : SampleTime) :
    (ADSR.update a t).attack_rate = a.attack_rate ∧
    (ADSR.update a t).decay_rate = a.decay_rate ∧
    (ADSR.update a t).release_rate = a.release_rate ∧
    (ADSR.update a t).sustain_level = a.sustain_level := by
  obtain ⟨s, e, ar, dr, sl, rr, ti, st, lv⟩ := a
  cases st <;> simp only [ADSR.update] <;> (try split) <;> simp

theorem ADSR.update_after (a : ADSR) (t : SampleTime) (h : a.state = ADSRState.After) :
    (ADSR.update a t).state = ADSRState.After ∧ (ADSR.update a t).level = a.level := by
  obtain ⟨s, e, ar, dr, sl, rr, ti, st, lv⟩ := a
  cases st <;> simp_all [ADSR.update]

theorem ADSR.update_level_bounds (a : ADSR) (t : SampleTime)
    (hp : a.paramsOK) (h0 : 0 ≤ a.level) (h1 : a.level ≤ 1) :
    0 ≤ (ADSR.update a t).level ∧ (ADSR.update a t).level ≤ 1 := by
  obtain ⟨ha, hd, hr, hs0, hs1⟩ := hp
  have hdt : 0 ≤ t.as_secs := t.as_secs_nonneg
  obtain ⟨s, e, ar, dr, sl, rr, ti, st, lv⟩ := a
  simp only at ha hd hr hs0 hs1 h0 h1
  cases st <;> simp only [ADSR.update] <;> (try split) <;> (try dsimp only) <;>
    constructor <;> nlinarith

theorem ADSR.foldl_level_bounds (ts : List SampleTime) (a : ADSR)
    (hp : a.paramsOK) (h0 : 0 ≤ a.level) (h1 : a.level ≤ 1) :
    0 ≤ (ts.foldl ADSR.update a).level ∧ (ts.foldl ADSR.update a).level ≤ 1 := by
  induction ts generalizing a with
  | nil => exact ⟨h0, h1⟩
  | cons t rest ih =>
      have hpar := ADSR.update_params a t
      have hp2 : (ADSR.update a t).paramsOK := by
        unfold ADSR.paramsOK at hp ⊢
        rw [hpar.1, hpar.2.1, hpar.2.2.1, hpar.2.2.2]
        exact hp
      have hb := ADSR.update_level_bounds a t hp h0 h1
      exact ih (ADSR.update a t) hp2 hb.1 hb.2

/-- C2: for SampleTime values whose cross products stay below 2^32 and whose
rates are positive, equality and strict order are decided exactly by the
integer cross products count times the other rate; no floating-point seconds
conversion is involved (eqv and lt are defined purely on natural numbers). -/
theorem C2_cross_multiplication (a b : SampleTime)
    (hab : a.count * b.rate < U32) (hba : b.count * a.rate < U32)
    (_hra : 0 < a.rate) (_hrb : 0 < b.rate) :
    (SampleTime.eqv a b = true ↔ a.count * b.rate = b.count * a.rate) ∧
    (SampleTime.lt a b = true ↔ a.count * b.rate < b.count * a.rate) := by
  unfold SampleTime.eqv SampleTime.lt
  rw [Nat.mod_eq_of_lt hab, Nat.mod_eq_of_lt hba]
  simp

/-- Witness for C2 at count 1 and 2, rate 48000 on both sides. -/
theorem C2_cross_multiplication_witness :
    (SampleTime.mk 1 48000).count * (SampleTime.mk 2 48000).rate < U32 ∧
    (SampleTime.mk 2 48000).count * (SampleTime.mk 1 48000).rate < U32 ∧
    0 < (48000 : Nat) ∧
    (SampleTime.eqv (SampleTime.mk 1 48000) (SampleTime.mk 2 48000) = true ↔
      1 * 48000 = 2 * 48000) ∧
    (SampleTime.lt (SampleTime.mk 1 48000) (SampleTime.mk 2 48000) = true ↔
      1 * 48000 < 2 * 48000) := by
  refine ⟨by decide, by decide, by decide, ?_⟩
  exact C2_cross_multiplication (SampleTime.mk 1 48000) (SampleTime.mk 2 48000)
    (by decide) (by decide) (by decide) (by decide)

/-- An ADSR envelope sitting in the Attack state with level 0 and attack rate 1,
so that one tick of one second lands the level exactly on 1. -/
def attackLandsOnOne : ADSR :=
  { activeStart := 0
    activeEnd := 10
    attack_rate := 1
    decay_rate := 1
    sustain_level := 1/2
    release_rate := 1
    time := 0
    state := ADSRState.Attack
    level := 0 }

/-- A one-second tick. -/
def oneSecond : SampleTime := { count := 1, rate := 1 }

/-- C1 counterexample: the claim says a tick that lands the level exactly on
1.0 triggers the transition to Decay, but the source tests level > 1.0
strictly, so an Attack tick from level 0 with attack rate 1 and dt = 1 second
leaves the level at exactly 1 with the state still Attack, not Decay. -/
theorem C1_counterexample :
    (ADSR.update attackLandsOnOne oneSecond).level = 1 ∧
    (ADSR.update attackLandsOnOne oneSecond).state = ADSRState.Attack ∧
    ADSRState.Attack ≠ ADSRState.Decay := by
  refine ⟨?_, ?_, by decide⟩ <;>
  · simp only [ADSR.update, attackLandsOnOne, oneSecond, SampleTime.as_secs]
    norm_num

/-- C1 (amended): in the Attack state an advance by dt seconds adds
attack_rate times dt to the level; whenever the resulting level is strictly
greater than 1.0 it is clamped to exactly 1.0 and the state becomes Decay; a
tick that lands the level exactly on 1.0 (or below) keeps the state Attack
with the unclamped level. -/
theorem C1_attack_step (a : ADSR) (t : SampleTime) (h : a.state = ADSRState.Attack) :
    (1 < a.level + a.attack_rate * t.as_secs →
      (ADSR.update a t).level = 1 ∧ (ADSR.update a t).state = ADSRState.Decay) ∧
    (a.level + a.attack_rate * t.as_secs ≤ 1 →
      (ADSR.update a t).level = a.level + a.attack_rate * t.as_secs ∧
      (ADSR.update a t).state = ADSRState.Attack) := by
  obtain ⟨s, e, ar, dr, sl, rr, ti, st, lv⟩ := a
  simp only at h
  subst h
  simp only [ADSR.update]
  constructor
  · intro hlt
    rw [if_pos hlt]
    exact ⟨rfl, rfl⟩
  · intro hle
    rw [if_neg (not_lt.mpr hle)]
    exact ⟨rfl, rfl⟩

/-- Witness for C1 at an Attack envelope with attack rate 2, level 0 and a
one-second tick, which overshoots 1 and therefore clamps and moves to Decay. -/
theorem C1_attack_step_witness :
    ({ attackLandsOnOne with attack_rate := 2 } : ADSR).state = ADSRState.Attack ∧
    (ADSR.update { attackLandsOnOne with attack_rate := 2 } oneSecond).level = 1 ∧
    (ADSR.update { attackLandsOnOne with attack_rate := 2 } oneSecond).state = ADSRState.Decay := by
  refine ⟨rfl, ?_⟩
  exact (C1_attack_step { attackLandsOnOne with attack_rate := 2 } oneSecond rfl).1
    (by norm_num [attackLandsOnOne, oneSecond, SampleTime.as_secs])

/-- C5: the envelope is one-shot. Once the state is After with level 0, any
sequence of further advances, by arbitrary elapsed times, leaves the state
After and the sampled value equal to 0. -/
theorem C5_one_shot (a : ADSR) (hs : a.state = ADSRState.After) (hl : a.level = 0)
    (ts : List SampleTime) :
    (ts.foldl ADSR.update a).state = ADSRState.After ∧
    (ts.foldl ADSR.update a).sample = 0 := by
  induction ts generalizing a with
  | nil => exact ⟨hs, hl⟩
  | cons t rest ih =>
      have h1 := ADSR.update_after a t hs
      exact ih (ADSR.update a t) h1.1 (h1.2.trans hl)

/-- An ADSR envelope that has finished: state After, level 0, with global time
about to re-enter the active window. -/
def finishedEnvelope : ADSR :=
  { activeStart := 0
    activeEnd := 10
    attack_rate := 1
    decay_rate := 1
    sustain_level := 1/2
    release_rate := 1
    time := 5
    state := ADSRState.After
    level := 0 }

/-- Witness for C5: a finished envelope advanced by two more ticks, the first
landing global time back inside the active window, stays in After with value 0. -/
theorem C5_one_shot_witness :
    finishedEnvelope.state = ADSRState.After ∧ finishedEnvelope.level = 0 ∧
    (([oneSecond, { count := 3, rate := 2 }] : List SampleTime).foldl ADSR.update
        finishedEnvelope).state = ADSRState.After ∧
    (([oneSecond, { count := 3, rate := 2 }] : List SampleTime).foldl ADSR.update
        finishedEnvelope).sample = 0 := by
  refine ⟨rfl, rfl, ?_⟩
  exact C5_one_shot finishedEnvelope rfl rfl [oneSecond, { count := 3, rate := 2 }]

/-- C7: with non-negative attack, decay and release rates and a sustain level
in the unit interval, the envelope built by the adsr constructor (level 0,
state Before) keeps its level inside the unit interval across every sequence
of advances. -/
theorem C7_level_in_unit (s e ar dr sl rr : ℚ)
    (h1 : 0 ≤ ar) (h2 : 0 ≤ dr) (h3 : 0 ≤ rr) (h4 : 0 ≤ sl) (h5 : sl ≤ 1)
    (ts : List SampleTime) :
    0 ≤ (ts.foldl ADSR.update (adsr s e ar dr sl rr)).level ∧
    (ts.foldl ADSR.update (adsr s e ar dr sl rr)).level ≤ 1 := by
  refine ADSR.foldl_level_bounds ts (adsr s e ar dr sl rr) ?_ (by norm_num [adsr]) (by norm_num [adsr])
  exact ⟨h1, h2, h3, h4, h5⟩

/-- Witness for C7 at the demo parameters of the first voice: active window
0 to 3.1 seconds, attack 8, decay 15, sustain 0.6, release 1, advanced by a
few concrete ticks. -/
theorem C7_level_in_unit_witness :
    (0 ≤ (8 : ℚ) ∧ 0 ≤ (15 : ℚ) ∧ 0 ≤ (1 : ℚ) ∧ 0 ≤ (6/10 : ℚ) ∧ (6/10 : ℚ) ≤ 1) ∧
    (0 ≤ (([oneSecond, oneSecond, { count := 3, rate := 2 }] : List SampleTime).foldl
        ADSR.update (adsr 0 (31/10) 8 15 (6/10) 1)).level ∧
      (([oneSecond, oneSecond, { count := 3, rate := 2 }] : List SampleTime).foldl
        ADSR.update (adsr 0 (31/10) 8 15 (6/10) 1)).level ≤ 1) := by
  refine ⟨by norm_num, ?_⟩
  exact C7_level_in_unit 0 (31/10) 8 15 (6/10) 1 (by norm_num) (by norm_num) (by norm_num)
    (by norm_num) (by norm_num) [oneSecond, oneSecond, { count := 3, rate := 2 }]

/-- C3: advancing a Sine oscillator first advances its frequency source, then
sets the phase to the Rust fractional part of phase plus elapsed seconds times
the current value of the (already advanced) frequency source; sampling returns
sin of 2 pi times phase and, being a pure function of the state, mutates
nothing. -/
theorem C3_sine_update {σ : Type} (F : Source σ ℝ) (s : Sine σ) (t : SampleTime) :
    ((sineSource F).update s t).hz = F.update s.hz t ∧
    ((sineSource F).update s t).phase =
      rustFract (s.phase + (t.as_secs : ℝ) * F.sample (F.update s.hz t)) ∧
    (sineSource F).sample s = Real.sin (2 * Real.pi * s.phase) := by
  refine ⟨rfl, rfl, ?_⟩
  show Real.sin (s.phase * (2 * Real.pi)) = Real.sin (2 * Real.pi * s.phase)
  rw [mul_comm]

/-- C4: the Sum (Add) and Product (Mul) combinators sample to the pointwise
sum, respectively product, of their two children, and one advance of the
parent advances each child exactly once, unconditionally on the current
values of the children. -/
theorem C4_combinators {σ₁ σ₂ : Type} (L : Source σ₁ ℝ) (R : Source σ₂ ℝ)
    (sa : Add σ₁ σ₂) (sm : Mul σ₁ σ₂) (t : SampleTime) :
    (addSource L R).sample sa = L.sample sa.left + R.sample sa.right ∧
    (addSource L R).update sa t =
      { left := L.update sa.left t, right := R.update sa.right t } ∧
    (mulSource L R).sample sm = L.sample sm.left * R.sample sm.right ∧
    (mulSource L R).update sm t =
      { left := L.update sm.left t, right := R.update sm.right t } :=
  ⟨rfl, rfl, rfl, rfl⟩

/-- C10: wrapping is behaviorally transparent. Over any sequence of advances
the wrapped node carries exactly the inner state that the bare node would
reach, sampling a wrapped node returns exactly the inner sample, and wrap
followed by unwrap is the identity. -/
theorem C10_wrapped_transparent {σ S : Type} (Src : Source σ S) (s : σ)
    (ts : List SampleTime) :
    (ts.foldl (wrappedSource Src).update (wrap s)).inner = ts.foldl Src.update s ∧
    (∀ w : Wrapped σ, (wrappedSource Src).sample w = Src.sample w.inner) ∧
    (wrap s).unwrap = s := by
  refine ⟨?_, fun w => rfl, rfl⟩
  induction ts generalizing s with
  | nil => rfl
  | cons t rest ih => exact ih (Src.update s t)

/-- C9: rendering a buffer of n frames advances the root source exactly once
per frame by SampleTime count 1 at the device rate, samples it exactly once,
and writes that single value into every channel slot of the frame; after the
buffer the source has been advanced exactly n times. -/
theorem C9_render_loop {σ S : Type} (Src : Source σ S) (rate channels : Nat)
    (s : σ) (n : Nat) :
    (renderCallback Src rate channels s n).1 = (tick Src rate)^[n] s ∧
    (renderCallback Src rate channels s n).2 =
      (List.range n).map
        (fun i => List.replicate channels (Src.sample ((tick Src rate)^[i + 1] s))) := by
  induction n generalizing s with
  | zero => exact ⟨rfl, rfl⟩
  | succ n ih =>
      obtain ⟨ih1, ih2⟩ := ih (tick Src rate s)
      constructor
      · show (renderCallback Src rate channels (tick Src rate s) n).1 = _
        rw [ih1]
        exact (Function.iterate_succ_apply (tick Src rate) n s).symm
      · show List.replicate channels (Src.sample (tick Src rate s)) ::
            (renderCallback Src rate channels (tick Src rate s) n).2 = _
        have hf : (fun i => List.replicate channels
              (Src.sample ((tick Src rate)^[i + 1] (tick Src rate s)))) =
            ((fun i => List.replicate channels
              (Src.sample ((tick Src rate)^[i + 1] s))) ∘ Nat.succ) := by
          funext i
          simp [Function.comp, Function.iterate_succ_apply]
        rw [ih2, hf, List.range_succ_eq_map, List.map_cons, List.map_map]
        rfl

theorem rustFract_of_nonneg (x : ℝ) (hx : 0 ≤ x) : rustFract x = Int.fract x := by
  unfold rustFract rustTrunc Int.fract
  rw [if_pos hx]

theorem sine_phase_step {σ : Type} (F : Source σ ℝ) (hF : ∀ st : σ, 0 ≤ F.sample st)
    (s : Sine σ) (h0 : 0 ≤ s.phase) (t : SampleTime) :
    0 ≤ ((sineSource F).update s t).phase ∧ ((sineSource F).update s t).phase < 1 := by
  have hdt : (0:ℝ) ≤ (t.as_secs : ℝ) := by exact_mod_cast t.as_secs_nonneg
  have harg : 0 ≤ s.phase + (t.as_secs : ℝ) * F.sample (F.update s.hz t) :=
    add_nonneg h0 (mul_nonneg hdt (hF _))
  show 0 ≤ rustFract (s.phase + (t.as_secs : ℝ) * F.sample (F.update s.hz t)) ∧
      rustFract (s.phase + (t.as_secs : ℝ) * F.sample (F.update s.hz t)) < 1
  rw [rustFract_of_nonneg _ harg]
  exact ⟨Int.fract_nonneg _, Int.fract_lt_one _⟩

/-- C6 counterexample: a sine oscillator whose frequency source is the bare
f32 value -1/2, starting at phase 0, advanced by one second, reaches phase
-1/2, which is not in the half-open unit interval: Rust fract truncates
toward zero, so a negative phase argument yields a negative phase. -/
theorem C6_counterexample :
    ((sineSource f32Source).update { hz := -(1/2 : ℝ), phase := 0 } oneSecond).phase
      = -(1/2 : ℝ) ∧
    ¬ (0 ≤ -(1/2 : ℝ)) := by
  constructor
  · show rustFract ((0:ℝ) + ((oneSecond.as_secs : ℚ) : ℝ) * (-(1/2 : ℝ))) = -(1/2 : ℝ)
    have h1 : ((oneSecond.as_secs : ℚ) : ℝ) = 1 := by
      norm_num [oneSecond, SampleTime.as_secs]
    rw [h1]
    have harg : (0:ℝ) + 1 * (-(1/2 : ℝ)) = -(1/2 : ℝ) := by norm_num
    rw [harg]
    have hc : ⌈(-(1/2) : ℝ)⌉ = 0 := by
      rw [Int.ceil_eq_zero_iff]
      simp only [Set.mem_Ioc]
      norm_num
    unfold rustFract rustTrunc
    rw [if_neg (by norm_num : ¬ (0:ℝ) ≤ -(1/2)), hc]
    norm_num
  · norm_num

/-- C6 (amended): for a frequency source all of whose sample values are
non-negative, the oscillator phase stays in the half-open unit interval after
every advance of every sequence of ticks; for a frequency source that can go
negative this fails, since Rust fract truncates toward zero (see the
counterexample). -/
theorem C6_phase_in_unit {σ : Type} (F : Source σ ℝ) (hF : ∀ st : σ, 0 ≤ F.sample st)
    (s : Sine σ) (h0 : 0 ≤ s.phase) (h1 : s.phase < 1) (ts : List SampleTime) :
    0 ≤ (ts.foldl (sineSource F).update s).phase ∧
    (ts.foldl (sineSource F).update s).phase < 1 := by
  induction ts generalizing s with
  | nil => exact ⟨h0, h1⟩
  | cons t rest ih =>
      have hstep := sine_phase_step F hF s h0 t
      exact ih ((sineSource F).update s t) hstep.1 hstep.2

/-- Witness for C6 at a constant 440 Hz source over the unit state, starting
from the sine constructor (phase 0), advanced by one tick of one second. -/
theorem C6_phase_in_unit_witness :
    (∀ st : Unit, 0 ≤ (Source.mk (fun s _ => s) (fun _ => (440:ℝ))).sample st) ∧
    (0:ℝ) ≤ (sine () : Sine Unit).phase ∧ (sine () : Sine Unit).phase < 1 ∧
    (0 ≤ (([oneSecond] : List SampleTime).foldl
        (sineSource (Source.mk (fun s _ => s) (fun _ => (440:ℝ)))).update (sine ())).phase ∧
      (([oneSecond] : List SampleTime).foldl
        (sineSource (Source.mk (fun s _ => s) (fun _ => (440:ℝ)))).update (sine ())).phase < 1) := by
  refine ⟨fun st => by norm_num, by norm_num [sine], by norm_num [sine], ?_⟩
  exact C6_phase_in_unit (Source.mk (fun s _ => s) (fun _ => (440:ℝ)))
    (fun st => by norm_num) (sine ()) (by norm_num [sine]) (by norm_num [sine]) [oneSecond]

theorem vib_structure_foldl (s : Sine (Add ℝ (Mul (Sine ℝ) ℝ))) (ts : List SampleTime) :
    (ts.foldl (sineSource vibHzSource).update s).hz.left = s.hz.left ∧
    (ts.foldl (sineSource vibHzSource).update s).hz.right.right = s.hz.right.right := by
  induction ts generalizing s with
  | nil => exact ⟨rfl, rfl⟩
  | cons t rest ih => exact ih ((sineSource vibHzSource).update s t)

theorem vib_sample_bound (s : Sine (Add ℝ (Mul (Sine ℝ) ℝ)))
    (hR : s.hz.right.right = 1) :
    s.hz.left - 1 ≤ vibHzSource.sample s.hz ∧ vibHzSource.sample s.hz ≤ s.hz.left + 1 := by
  have hsample : vibHzSource.sample s.hz =
      s.hz.left + Real.sin (s.hz.right.left.phase * (2 * Real.pi)) * s.hz.right.right := rfl
  have h1 := Real.neg_one_le_sin (s.hz.right.left.phase * (2 * Real.pi))
  have h2 := Real.sin_le_one (s.hz.right.left.phase * (2 * Real.pi))
  rw [hsample, hR]
  constructor <;> nlinarith

/-- C8: the vibrato constructor builds the frequency source as the base
frequency source plus the modulator sine scaled by exactly cents / 14.0, and
for depth cents = 14 the effective instantaneous frequency sampled from that
source stays within 1 Hz of the base frequency F over every sequence of
advances, since the value of the sine modulator lies between -1 and 1. -/
theorem C8_vibrato (F M cents : ℝ) :
    ((sine F).vibrato M cents).hz =
      { left := F, right := { left := sine M, right := cents / 14 } } ∧
    (∀ ts : List SampleTime,
      F - 1 ≤ vibHzSource.sample
          ((ts.foldl (sineSource vibHzSource).update ((sine F).vibrato M 14)).hz) ∧
      vibHzSource.sample
          ((ts.foldl (sineSource vibHzSource).update ((sine F).vibrato M 14)).hz) ≤ F + 1) := by
  refine ⟨rfl, fun ts => ?_⟩
  obtain ⟨hL, hR⟩ := vib_structure_foldl ((sine F).vibrato M 14) ts
  have hL2 : (ts.foldl (sineSource vibHzSource).update ((sine F).vibrato M 14)).hz.left = F := hL
  have hR2 : (ts.foldl (sineSource vibHzSource).update
      ((sine F).vibrato M 14)).hz.right.right = (14:ℝ)/14 := hR
  have hR1 : (ts.foldl (sineSource vibHzSource).update
      ((sine F).vibrato M 14)).hz.right.right = 1 := by rw [hR2]; norm_num
  have hb := vib_sample_bound (ts.foldl (sineSource vibHzSource).update
      ((sine F).vibrato M 14)) hR1
  rw [hL2] at hb
  exact hb

end Aud
